import Mathlib

/-!
Verification of the tree-command parser emitted by
`src/scripts/generate_lark_parser.py`.  The Python script writes a fixed
TypeScript module; the behaviour under test is that of the emitted
functions `parseLarkTreeCommand`, `parseAddCommand`, `parseRemoveCommand`,
`parseMoveCommand`, `parseRenameCommand`, `parseSetCommand`,
`parseAttributes` and `validateLarkParserConsistency`.  The definitions
below are a direct shallow embedding of that emitted code:

* strings are `List Char` internally (`String` at the API);
* the attribute scan reproduces the JavaScript regex
  `(\w+)=(?:"([^"]*)"|'([^']*)'|([a-zA-Z_][a-zA-Z0-9_-]*))` with `exec`
  in a loop: leftmost match, resume after each match;
* the JavaScript value expression `match[2] || match[3] || match[4]`
  yields `undefined` when a quoted group matched the empty string; this is
  modelled by `Option String` (`none` = JS `undefined`), and the JS
  truthiness test `!attributes.x` is modelled by `attrTruthy`;
* JS objects keep first-insertion key order while later assignments to the
  same key overwrite in place; assigning the key `__proto__` hits the
  inherited prototype accessor and creates no own property (`jsInsert`),
  and `Object.keys` enumerates array-index keys in ascending numeric order
  before the other string keys (`attrKeys`);
* the `\s` class and `String.trim` use the full ECMAScript whitespace set,
  Unicode members included (`isJsSpace`);
* escape handling is the emitted chain of six sequential global
  `.replace` calls, in source order.
-/

namespace LarkGen

/-- The character class of the JS regex `\s` and of `String.trim`:
ECMAScript WhiteSpace together with LineTerminator, i.e. the ASCII
whitespace characters plus NBSP, the Ogham space mark, the Unicode space
separators U+2000..U+200A, the line and paragraph separators, the narrow
and medium mathematical spaces, the ideographic space and the BOM. -/
def isJsSpace (c : Char) : Bool :=
  c == ' ' || c == '\t' || c == '\n' || c == '\r' || c == '\x0b' || c == '\x0c' ||
    c == '\u00A0' || c == '\u1680' || ('\u2000' ≤ c && c ≤ '\u200A') ||
    c == '\u2028' || c == '\u2029' || c == '\u202F' || c == '\u205F' ||
    c == '\u3000' || c == '\uFEFF'

/-- The JS `\w` class: ASCII letters, digits, underscore. -/
def isWordChar (c : Char) : Bool :=
  c.isAlpha || c.isDigit || c == '_'

/-- First character of a bare (unquoted) attribute value: `[a-zA-Z_]`. -/
def isBareStart (c : Char) : Bool :=
  c.isAlpha || c == '_'

/-- Continuation character of a bare value: `[a-zA-Z0-9_-]`. -/
def isBareCont (c : Char) : Bool :=
  c.isAlpha || c.isDigit || c == '_' || c == '-'

/-- The single-quote character (written via its code point). -/
def squote : Char := Char.ofNat 39

/-- One global `.replace` of the two-character pattern `a` `b` by the single
character `r`, scanning left to right without rescanning replacements. -/
def replace2 (a b r : Char) : List Char → List Char
  | [] => []
  | [c] => [c]
  | c :: d :: rest =>
    if c == a && d == b then r :: replace2 a b r rest
    else c :: replace2 a b r (d :: rest)

/-- The emitted escape chain, in source order:
`\"` then `\'` then `\\` then `\n` then `\r` then `\t`. -/
def unescape (l : List Char) : List Char :=
  replace2 '\\' 't' '\t'
    (replace2 '\\' 'r' '\r'
      (replace2 '\\' 'n' '\n'
        (replace2 '\\' '\\' '\\'
          (replace2 '\\' squote squote
            (replace2 '\\' '"' '"' l)))))

/-- Value produced from a quoted group: the JS `match[2] || match[3]`
test makes an empty capture fall through to `undefined` (`none`), and only
a non-empty capture goes through the escape chain. -/
def mkQuoted (content : List Char) : Option String :=
  if content.isEmpty then none else some (String.mk (unescape content))

/-- Match the value alternation of the attribute regex at the head of `l`:
double-quoted `"([^"]*)"`, else single-quoted `'([^']*)'`, else bare
`[a-zA-Z_][a-zA-Z0-9_-]*`.  Returns the (possibly undefined) value and the
unconsumed rest. -/
def matchValue (l : List Char) : Option (Option String × List Char) :=
  match l with
  | [] => none
  | c :: r =>
    if c == '"' then
      match r.dropWhile (fun x => !(x == '"')) with
      | _ :: rest => some (mkQuoted (r.takeWhile (fun x => !(x == '"'))), rest)
      | [] => none
    else if c == squote then
      match r.dropWhile (fun x => !(x == squote)) with
      | _ :: rest => some (mkQuoted (r.takeWhile (fun x => !(x == squote))), rest)
      | [] => none
    else if isBareStart c then
      some (some (String.mk (c :: r.takeWhile isBareCont)), r.dropWhile isBareCont)
    else
      none

/-- Match the whole attribute regex `(\w+)=value` at the head of `l`.
The captured name is lowercased (`match[1].toLowerCase()`). -/
def matchAt (l : List Char) : Option (String × Option String × List Char) :=
  match l.takeWhile isWordChar, l.dropWhile isWordChar with
  | [], _ => none
  | nm :: nms, c :: rest2 =>
    if c == '=' then
      match matchValue rest2 with
      | some (v, rest3) => some (String.mk ((nm :: nms).map Char.toLower), v, rest3)
      | none => none
    else none
  | _ :: _, [] => none

/-- Fuel-indexed scan loop of `regex.exec`: at each position either take the
leftmost match and resume after it, or step one character forward.  The fuel
only makes the recursion structural; `scanAttrs` supplies enough. -/
def scanAttrsFuel : Nat → List Char → List (String × Option String)
  | 0, _ => []
  | _ + 1, [] => []
  | n + 1, c :: tail =>
    match matchAt (c :: tail) with
    | some (k, v, rest) => (k, v) :: scanAttrsFuel n rest
    | none => scanAttrsFuel n tail

/-- The ordered sequence of regex matches found in `l`. -/
def scanAttrs (l : List Char) : List (String × Option String) :=
  scanAttrsFuel l.length l

/-- A JS object of attribute entries: association list in first-insertion
key order; values are `none` for JS `undefined`. -/
abbrev Attrs := List (String × Option String)

/-- Ordinary JS property assignment `obj[k] = v`: overwrite in place if the
key exists, else append. -/
def jsInsertRaw (k : String) (v : Option String) : Attrs → Attrs
  | [] => [(k, v)]
  | (k', v') :: rest =>
    if k' == k then (k, v) :: rest else (k', v') :: jsInsertRaw k v rest

/-- JS property assignment `obj[k] = v` on a plain object: assigning the
key `__proto__` invokes the inherited `Object.prototype` accessor, which
for a string or `undefined` value does nothing and creates no own
property; every other key is an ordinary own-property assignment. -/
def jsInsert (k : String) (v : Option String) (m : Attrs) : Attrs :=
  if k == "__proto__" then m else jsInsertRaw k v m

/-- The emitted `parseAttributes`, on a character list. -/
def parseAttributesL (l : List Char) : Attrs :=
  (scanAttrs l).foldl (fun m kv => jsInsert kv.1 kv.2 m) []

/-- The emitted `parseAttributes : string -> { [key: string]: string }`. -/
def parseAttributes (s : String) : Attrs :=
  parseAttributesL s.data

/-- Numeric value of a digit string. -/
def digitsToNat (l : List Char) : Nat :=
  l.foldl (fun n c => n * 10 + (c.toNat - 48)) 0

/-- Is `l` the canonical decimal spelling of an ECMAScript array index,
i.e. an integer `n` with `0 ≤ n < 2^32 - 1`: digits only and no leading
zero (except the single digit `0`)? -/
def isCanonicalIndex (l : List Char) : Bool :=
  match l with
  | [] => false
  | ['0'] => true
  | c :: _ => l.all Char.isDigit && !(c == '0') && digitsToNat l < 4294967295

/-- Array-index test on a key string. -/
def isArrayIndexKey (s : String) : Bool :=
  isCanonicalIndex s.data

/-- Numeric sort value of an array-index key. -/
def keyNum (s : String) : Nat :=
  digitsToNat s.data

/-- Insertion into a list of array-index keys kept in ascending numeric
order. -/
def insertByNum (k : String) : List String → List String
  | [] => [k]
  | x :: xs => if keyNum k ≤ keyNum x then k :: x :: xs else x :: insertByNum k xs

/-- Ascending numeric insertion sort of array-index keys. -/
def sortByNum (l : List String) : List String :=
  l.foldr insertByNum []

/-- `Object.keys(attributes)`: the ECMAScript own-property-key order —
array-index keys in ascending numeric order first, then the remaining
string keys in first-insertion order. -/
def attrKeys (m : Attrs) : List String :=
  sortByNum ((m.map Prod.fst).filter (fun k => isArrayIndexKey k)) ++
    (m.map Prod.fst).filter (fun k => !(isArrayIndexKey k))

/-- JS truthiness of `attributes[k]`: the key is present, defined, and not
the empty string. -/
def attrTruthy (m : Attrs) (k : String) : Bool :=
  match List.lookup k m with
  | some (some v) => !(v == "")
  | _ => false

/-- The five command kinds of `ParsedTreeCommand.type`. -/
inductive CommandType where
  | ADD
  | REMOVE
  | MOVE
  | RENAME
  | SET
deriving DecidableEq, Repr

/-- The distinguishable failure messages thrown by the emitted parser. -/
inductive ParseError where
  /-- `Invalid command format - must start with ADD, REMOVE, MOVE, RENAME, or SET` -/
  | invalidFormat
  /-- `<kind> command must start with id= (following Lark grammar)` -/
  | idPrefixMissing (kind : CommandType)
  /-- the per-kind `must have ...` messages; `names` is the required-attribute
  list the message spells out for that kind -/
  | missingRequired (kind : CommandType) (names : List String)
  /-- `REMOVE command should only have id, found: ...` -/
  | unexpectedAttributes (names : List String)
  /-- `SET command must have at least one attribute to set ...` -/
  | emptyAttributeSet
deriving DecidableEq, Repr

/-- The emitted result object `{ type, id: '', ...attributes }`: the spread
makes every tokenized entry a field, so the record keeps `type` and the full
attribute object. -/
structure ParsedTreeCommand where
  type : CommandType
  attrs : Attrs
deriving DecidableEq, Repr

/-- The `id` field of the spread result: the default `''` unless the
attribute object carries an `id` entry (possibly JS-`undefined`). -/
def ParsedTreeCommand.id (c : ParsedTreeCommand) : Option String :=
  match List.lookup "id" c.attrs with
  | none => some ""
  | some v => v

/-- The literal `id=` checked by `remainder.startsWith('id=')`. -/
def idEq : List Char := ['i', 'd', '=']

/-- The emitted `parseAddCommand`. -/
def parseAddCommand (remainder : List Char) : Except ParseError ParsedTreeCommand :=
  if !(idEq.isPrefixOf remainder) then .error (.idPrefixMissing .ADD)
  else
    let attributes := parseAttributesL remainder
    if !(attrTruthy attributes "id") then .error (.missingRequired .ADD ["id"])
    else .ok ⟨.ADD, attributes⟩

/-- The emitted `parseRemoveCommand`. -/
def parseRemoveCommand (remainder : List Char) : Except ParseError ParsedTreeCommand :=
  if !(idEq.isPrefixOf remainder) then .error (.idPrefixMissing .REMOVE)
  else
    let attributes := parseAttributesL remainder
    if !(attrTruthy attributes "id") then .error (.missingRequired .REMOVE ["id"])
    else
      let extraAttrs := (attrKeys attributes).filter (fun k => !(k == "id"))
      if extraAttrs.length > 0 then .error (.unexpectedAttributes extraAttrs)
      else .ok ⟨.REMOVE, attributes⟩

/-- The emitted `parseMoveCommand`. -/
def parseMoveCommand (remainder : List Char) : Except ParseError ParsedTreeCommand :=
  if !(idEq.isPrefixOf remainder) then .error (.idPrefixMissing .MOVE)
  else
    let attributes := parseAttributesL remainder
    if !(attrTruthy attributes "id") || !(attrTruthy attributes "parent") then
      .error (.missingRequired .MOVE ["id", "parent"])
    else .ok ⟨.MOVE, attributes⟩

/-- The emitted `parseRenameCommand`. -/
def parseRenameCommand (remainder : List Char) : Except ParseError ParsedTreeCommand :=
  if !(idEq.isPrefixOf remainder) then .error (.idPrefixMissing .RENAME)
  else
    let attributes := parseAttributesL remainder
    if !(attrTruthy attributes "id") || !(attrTruthy attributes "label") then
      .error (.missingRequired .RENAME ["id", "label"])
    else .ok ⟨.RENAME, attributes⟩

/-- The emitted `parseSetCommand`. -/
def parseSetCommand (remainder : List Char) : Except ParseError ParsedTreeCommand :=
  if !(idEq.isPrefixOf remainder) then .error (.idPrefixMissing .SET)
  else
    let attributes := parseAttributesL remainder
    if !(attrTruthy attributes "id") then .error (.missingRequired .SET ["id"])
    else
      let extraAttrs := (attrKeys attributes).filter (fun k => !(k == "id"))
      if extraAttrs.length == 0 then .error .emptyAttributeSet
      else .ok ⟨.SET, attributes⟩

/-- The `switch (commandType)` dispatch. -/
def parseByKind (k : CommandType) (remainder : List Char) :
    Except ParseError ParsedTreeCommand :=
  match k with
  | .ADD => parseAddCommand remainder
  | .REMOVE => parseRemoveCommand remainder
  | .MOVE => parseMoveCommand remainder
  | .RENAME => parseRenameCommand remainder
  | .SET => parseSetCommand remainder

/-- After a keyword, the regex `\s+` demands at least one whitespace
character and greedily consumes the run; the remainder starts after it. -/
def afterKw (l : List Char) : Option (List Char) :=
  match l with
  | [] => none
  | c :: _ => if isJsSpace c then some (l.dropWhile isJsSpace) else none

/-- Case-insensitive match of one keyword alternative at the head of the
input, then the mandatory whitespace run. -/
def tryKw : List Char → List Char → Option (List Char)
  | [], l => afterKw l
  | _ :: _, [] => none
  | k :: ks, c :: cs => if c.toUpper == k then tryKw ks cs else none

/-- The characters of each keyword. -/
def kwChars : CommandType → List Char
  | .ADD => ['A', 'D', 'D']
  | .REMOVE => ['R', 'E', 'M', 'O', 'V', 'E']
  | .MOVE => ['M', 'O', 'V', 'E']
  | .RENAME => ['R', 'E', 'N', 'A', 'M', 'E']
  | .SET => ['S', 'E', 'T']

/-- The anchored regex `^(ADD|REMOVE|MOVE|RENAME|SET)\s+` with flag `i`:
alternatives tried in source order (no keyword is a case-insensitive prefix
of another, so the order is immaterial). -/
def matchKeyword (l : List Char) : Option (CommandType × List Char) :=
  match tryKw (kwChars .ADD) l with
  | some r => some (.ADD, r)
  | none =>
  match tryKw (kwChars .REMOVE) l with
  | some r => some (.REMOVE, r)
  | none =>
  match tryKw (kwChars .MOVE) l with
  | some r => some (.MOVE, r)
  | none =>
  match tryKw (kwChars .RENAME) l with
  | some r => some (.RENAME, r)
  | none =>
  match tryKw (kwChars .SET) l with
  | some r => some (.SET, r)
  | none => none

/-- `commandString.trim()`. -/
def jsTrim (l : List Char) : List Char :=
  ((l.dropWhile isJsSpace).reverse.dropWhile isJsSpace).reverse

/-- The emitted `parseLarkTreeCommand`. -/
def parseLarkTreeCommand (s : String) : Except ParseError ParsedTreeCommand :=
  match matchKeyword (jsTrim s.data) with
  | none => .error .invalidFormat
  | some (k, remainder) => parseByKind k remainder

/-- The fixed suite inside `validateLarkParserConsistency`. -/
def testCases : List String :=
  ["ADD id=node1",
   "ADD id=node1 label=\"Test\"",
   "ADD id=node1 parent=root",
   "REMOVE id=node1",
   "MOVE id=node1 parent=root",
   "RENAME id=node1 label=\"New Name\"",
   "SET id=node1 value=\"test\""]

/-- `true` on the `ok` branch of a parse. -/
def exceptIsOk (e : Except ParseError ParsedTreeCommand) : Bool :=
  match e with
  | .ok _ => true
  | .error _ => false

/-- The issue message pushed for one failing test case. -/
def issueFor (tc : String) : Option String :=
  match parseLarkTreeCommand tc with
  | .ok _ => none
  | .error _ => some ("Failed to parse valid case: " ++ tc)

/-- The report returned by `validateLarkParserConsistency`. -/
structure ConsistencyReport where
  isConsistent : Bool
  issues : List String
deriving DecidableEq, Repr

/-- The emitted `validateLarkParserConsistency`. -/
def validateLarkParserConsistency : ConsistencyReport :=
  let issues := testCases.filterMap issueFor
  ⟨issues.isEmpty, issues⟩

/-- The required-attribute list each kind's failure message spells out. -/
def requiredAttrs : CommandType → List String
  | .ADD => ["id"]
  | .REMOVE => ["id"]
  | .MOVE => ["id", "parent"]
  | .RENAME => ["id", "label"]
  | .SET => ["id"]

/-- Serialization of an entry as `name="value"` followed by a separating
space, for the re-tokenization round trip. -/
def serializeAttrEntry (k v : String) : List Char :=
  k.data ++ '=' :: '"' :: (v.data ++ ['"', ' '])

/-- Serialization of a whole mapping, entries in order. -/
def serializeAttrs (m : List (String × String)) : List Char :=
  m.foldr (fun kv acc => serializeAttrEntry kv.1 kv.2 ++ acc) []

end LarkGen

deriving instance DecidableEq for Except

namespace LarkGen

/-! ### Structural lemmas about the scanner -/

theorem dropWhile_cons_length {p : Char → Bool} {t rest : List Char} {a : Char}
    (hd : t.dropWhile p = a :: rest) : rest.length < t.length := by
  have hsuf : a :: rest <:+ t := hd ▸ List.dropWhile_suffix _
  have hle := hsuf.length_le
  simp only [List.length_cons] at hle
  omega

theorem dropWhile_length_le (p : Char → Bool) (t : List Char) :
    (t.dropWhile p).length ≤ t.length :=
  (List.dropWhile_suffix _).length_le

theorem matchValue_rest_length {l : List Char} {v : Option String} {r : List Char}
    (h : matchValue l = some (v, r)) : r.length < l.length := by
  unfold matchValue at h
  split at h
  · exact absurd h (by simp)
  next c t =>
    split at h
    · split at h
      next a rest hd =>
        simp only [Option.some.injEq, Prod.mk.injEq] at h
        obtain ⟨-, hr⟩ := h
        subst hr
        have := dropWhile_cons_length hd
        simp only [List.length_cons]
        omega
      · exact absurd h (by simp)
    · split at h
      · split at h
        next a rest hd =>
          simp only [Option.some.injEq, Prod.mk.injEq] at h
          obtain ⟨-, hr⟩ := h
          subst hr
          have := dropWhile_cons_length hd
          simp only [List.length_cons]
          omega
        · exact absurd h (by simp)
      · split at h
        · simp only [Option.some.injEq, Prod.mk.injEq] at h
          obtain ⟨-, hr⟩ := h
          subst hr
          have := dropWhile_length_le isBareCont t
          simp only [List.length_cons]
          omega
        · exact absurd h (by simp)

theorem matchAt_rest_length {l : List Char} {k : String} {v : Option String} {r : List Char}
    (h : matchAt l = some (k, v, r)) : r.length < l.length := by
  unfold matchAt at h
  split at h
  · exact absurd h (by simp)
  next nm nms c rest2 heqt heqd =>
    split at h
    · split at h
      next v' rest3 hmv =>
        simp only [Option.some.injEq, Prod.mk.injEq] at h
        obtain ⟨-, -, hr⟩ := h
        subst hr
        have h1 := matchValue_rest_length hmv
        have hsuf : c :: rest2 <:+ l := heqd ▸ List.dropWhile_suffix _
        have h2 := hsuf.length_le
        simp only [List.length_cons] at h2
        omega
      · exact absurd h (by simp)
    · exact absurd h (by simp)
  · exact absurd h (by simp)

theorem matchAt_nil : matchAt ([] : List Char) = none := rfl

theorem matchAt_nonword {c : Char} {l : List Char} (h : isWordChar c = false) :
    matchAt (c :: l) = none := by
  unfold matchAt
  rw [List.takeWhile_cons, if_neg (by simp [h])]

theorem scanAttrsFuel_congr (n : Nat) :
    ∀ (m : Nat) (l : List Char), l.length ≤ n → l.length ≤ m →
      scanAttrsFuel n l = scanAttrsFuel m l := by
  induction n with
  | zero =>
    intro m l hn _
    have : l = [] := List.length_eq_zero.mp (Nat.le_zero.mp hn)
    subst this
    cases m <;> rfl
  | succ n ih =>
    intro m l hn hm
    cases l with
    | nil => cases m <;> rfl
    | cons c t =>
      cases m with
      | zero => simp at hm
      | succ m' =>
        show (match matchAt (c :: t) with
              | some (k, v, rest) => (k, v) :: scanAttrsFuel n rest
              | none => scanAttrsFuel n t) =
            (match matchAt (c :: t) with
              | some (k, v, rest) => (k, v) :: scanAttrsFuel m' rest
              | none => scanAttrsFuel m' t)
        cases hma : matchAt (c :: t) with
        | some kvr =>
          obtain ⟨k, v, rest⟩ := kvr
          have hlt := matchAt_rest_length hma
          simp only [List.length_cons] at hn hm hlt
          exact congrArg _ (ih m' rest (by omega) (by omega))
        | none =>
          simp only [List.length_cons] at hn hm
          exact ih m' t (by omega) (by omega)

theorem scanAttrs_nil : scanAttrs [] = [] := rfl

theorem scanAttrs_match {l : List Char} {k : String} {v : Option String} {rest : List Char}
    (h : matchAt l = some (k, v, rest)) :
    scanAttrs l = (k, v) :: scanAttrs rest := by
  cases l with
  | nil => exact absurd (matchAt_nil ▸ h) (by simp)
  | cons c t =>
    have hlt := matchAt_rest_length h
    show (match matchAt (c :: t) with
          | some (k, v, rest) => (k, v) :: scanAttrsFuel t.length rest
          | none => scanAttrsFuel t.length t) = _
    rw [h]
    show (k, v) :: scanAttrsFuel t.length rest = _
    simp only [List.length_cons] at hlt
    rw [scanAttrsFuel_congr t.length rest.length rest (by omega) (le_refl _)]
    rfl

theorem scanAttrs_skip {c : Char} {t : List Char} (h : matchAt (c :: t) = none) :
    scanAttrs (c :: t) = scanAttrs t := by
  show (match matchAt (c :: t) with
        | some (k, v, rest) => (k, v) :: scanAttrsFuel t.length rest
        | none => scanAttrsFuel t.length t) = _
  rw [h]
  rfl

/-! ### Lemmas about the attribute object -/

theorem attrTruthy_eq_true {m : Attrs} {k : String} (h : attrTruthy m k = true) :
    ∃ v, List.lookup k m = some (some v) ∧ v ≠ "" := by
  unfold attrTruthy at h
  cases hl : List.lookup k m with
  | none => rw [hl] at h; exact absurd h (by simp)
  | some o =>
    cases o with
    | none => rw [hl] at h; exact absurd h (by simp)
    | some v =>
      rw [hl] at h
      refine ⟨v, rfl, ?_⟩
      simpa using h

theorem jsInsertRaw_append {k : String} {v : Option String} {acc : Attrs}
    (h : ∀ p ∈ acc, p.1 ≠ k) : jsInsertRaw k v acc = acc ++ [(k, v)] := by
  induction acc with
  | nil => rfl
  | cons p rest ih =>
    obtain ⟨k', v'⟩ := p
    have hk : k' ≠ k := h (k', v') (List.mem_cons_self _ _)
    simp only [jsInsertRaw]
    rw [if_neg (by simpa using hk)]
    rw [ih (fun q hq => h q (List.mem_cons_of_mem _ hq))]
    rfl

theorem jsInsert_append {k : String} {v : Option String} {acc : Attrs}
    (hp : k ≠ "__proto__") (h : ∀ p ∈ acc, p.1 ≠ k) :
    jsInsert k v acc = acc ++ [(k, v)] := by
  unfold jsInsert
  rw [if_neg (by simpa using hp)]
  exact jsInsertRaw_append h

theorem foldl_jsInsert_eq {l : Attrs} :
    ∀ acc : Attrs, (∀ p ∈ l, p.1 ≠ "__proto__") →
      (∀ p ∈ l, ∀ q ∈ acc, q.1 ≠ p.1) → (l.map Prod.fst).Nodup →
      l.foldl (fun m kv => jsInsert kv.1 kv.2 m) acc = acc ++ l := by
  induction l with
  | nil => intro acc _ _ _; simp
  | cons p rest ih =>
    intro acc hproto hdisj hnodup
    obtain ⟨k, v⟩ := p
    simp only [List.foldl_cons]
    rw [show jsInsert (k, v).1 (k, v).2 acc = acc ++ [(k, v)] from
      jsInsert_append (hproto (k, v) (List.mem_cons_self _ _))
        (fun q hq => hdisj (k, v) (List.mem_cons_self _ _) q hq)]
    rw [ih (acc ++ [(k, v)]) ?_ ?_ ?_]
    · simp
    · exact fun q hq => hproto q (List.mem_cons_of_mem _ hq)
    · intro p hp q hq
      rcases List.mem_append.mp hq with hq | hq
      · exact hdisj p (List.mem_cons_of_mem _ hp) q hq
      · simp only [List.mem_singleton] at hq
        subst hq
        simp only [List.map_cons, List.nodup_cons] at hnodup
        intro heq
        refine hnodup.1 ?_
        rw [show k = p.1 from heq]
        exact List.mem_map_of_mem Prod.fst hp
    · simp only [List.map_cons, List.nodup_cons] at hnodup
      exact hnodup.2

/-! ### Success characterisation of the five validators -/

theorem parseAddCommand_ok {rem : List Char} {c : ParsedTreeCommand}
    (h : parseAddCommand rem = .ok c) :
    attrTruthy (parseAttributesL rem) "id" = true ∧ c = ⟨.ADD, parseAttributesL rem⟩ := by
  simp only [parseAddCommand] at h
  split at h
  · exact absurd h (by simp)
  · split at h
    · exact absurd h (by simp)
    next hid =>
      refine ⟨by simpa using hid, ?_⟩
      injection h with h2
      exact h2.symm

theorem parseRemoveCommand_ok {rem : List Char} {c : ParsedTreeCommand}
    (h : parseRemoveCommand rem = .ok c) :
    attrTruthy (parseAttributesL rem) "id" = true ∧ c = ⟨.REMOVE, parseAttributesL rem⟩ := by
  simp only [parseRemoveCommand] at h
  split at h
  · exact absurd h (by simp)
  · split at h
    · exact absurd h (by simp)
    next hid =>
      split at h
      · exact absurd h (by simp)
      · refine ⟨by simpa using hid, ?_⟩
        injection h with h2
        exact h2.symm

theorem parseMoveCommand_ok {rem : List Char} {c : ParsedTreeCommand}
    (h : parseMoveCommand rem = .ok c) :
    attrTruthy (parseAttributesL rem) "id" = true ∧ c = ⟨.MOVE, parseAttributesL rem⟩ := by
  simp only [parseMoveCommand] at h
  split at h
  · exact absurd h (by simp)
  · split at h
    · exact absurd h (by simp)
    next hid =>
      have hb : attrTruthy (parseAttributesL rem) "id" = true ∧
          attrTruthy (parseAttributesL rem) "parent" = true := by
        simpa [not_or] using hid
      refine ⟨hb.1, ?_⟩
      injection h with h2
      exact h2.symm

theorem parseRenameCommand_ok {rem : List Char} {c : ParsedTreeCommand}
    (h : parseRenameCommand rem = .ok c) :
    attrTruthy (parseAttributesL rem) "id" = true ∧ c = ⟨.RENAME, parseAttributesL rem⟩ := by
  simp only [parseRenameCommand] at h
  split at h
  · exact absurd h (by simp)
  · split at h
    · exact absurd h (by simp)
    next hid =>
      have hb : attrTruthy (parseAttributesL rem) "id" = true ∧
          attrTruthy (parseAttributesL rem) "label" = true := by
        simpa [not_or] using hid
      refine ⟨hb.1, ?_⟩
      injection h with h2
      exact h2.symm

theorem parseSetCommand_ok {rem : List Char} {c : ParsedTreeCommand}
    (h : parseSetCommand rem = .ok c) :
    attrTruthy (parseAttributesL rem) "id" = true ∧ c = ⟨.SET, parseAttributesL rem⟩ := by
  simp only [parseSetCommand] at h
  split at h
  · exact absurd h (by simp)
  · split at h
    · exact absurd h (by simp)
    next hid =>
      split at h
      · exact absurd h (by simp)
      · refine ⟨by simpa using hid, ?_⟩
        injection h with h2
        exact h2.symm

/-! ### Claim theorems -/

/-- Claim C7 (confirmed): whenever `parseLarkTreeCommand` succeeds, the
resulting command's `id` field is a defined, non-empty string.  The JS
truthiness guard `!attributes.id` on every construction path rules out a
missing key, an `undefined` value and the empty string. -/
theorem c7_id_present_nonempty (s : String) (c : ParsedTreeCommand)
    (h : parseLarkTreeCommand s = .ok c) :
    ∃ v, c.id = some v ∧ v ≠ "" := by
  unfold parseLarkTreeCommand at h
  cases hk : matchKeyword (jsTrim s.data) with
  | none => rw [hk] at h; exact absurd h (by simp)
  | some kr =>
    obtain ⟨k, rem⟩ := kr
    rw [hk] at h
    have hok : attrTruthy (parseAttributesL rem) "id" = true ∧
        c = ⟨k, parseAttributesL rem⟩ := by
      cases k
      · exact parseAddCommand_ok h
      · exact parseRemoveCommand_ok h
      · exact parseMoveCommand_ok h
      · exact parseRenameCommand_ok h
      · exact parseSetCommand_ok h
    obtain ⟨htr, rfl⟩ := hok
    obtain ⟨v, hl, hv⟩ := attrTruthy_eq_true htr
    exact ⟨v, by simp [ParsedTreeCommand.id, hl], hv⟩

/-- Witness for C7 at the concrete input `ADD id=x`. -/
theorem c7_id_present_nonempty_witness :
    ∃ v, (ParsedTreeCommand.mk .ADD [("id", some "x")]).id = some v ∧ v ≠ "" :=
  c7_id_present_nonempty "ADD id=x" ⟨.ADD, [("id", some "x")]⟩ rfl

/-- Claim C6 (confirmed): once a keyword is recognised, every one of the
five validators first checks the literal `id=` at the head of the remainder
and fails with the missing-`id=`-prefix error before any tokenization-based
check, regardless of attributes appearing later in the line. -/
theorem c6_id_prefix_checked_first (s : String) (k : CommandType) (rem : List Char)
    (hk : matchKeyword (jsTrim s.data) = some (k, rem))
    (h : idEq.isPrefixOf rem = false) :
    parseLarkTreeCommand s = .error (.idPrefixMissing k) := by
  unfold parseLarkTreeCommand
  rw [hk]
  cases k <;>
    simp [parseByKind, parseAddCommand, parseRemoveCommand, parseMoveCommand,
      parseRenameCommand, parseSetCommand, h]

/-- Witness for C6 at `ADD label=x id=y`: an `id` attribute appears later in
the line, yet the parse fails with the missing-`id=`-prefix error. -/
theorem c6_id_prefix_checked_first_witness :
    parseLarkTreeCommand "ADD label=x id=y" = .error (.idPrefixMissing .ADD) :=
  c6_id_prefix_checked_first "ADD label=x id=y" .ADD
    ['l', 'a', 'b', 'e', 'l', '=', 'x', ' ', 'i', 'd', '=', 'y'] (by decide) (by decide)

/-- Claim C1 (counterexample): the double-quoted capture group of the
attribute regex is `[^"]*`, which stops at the first double quote even when
that quote is preceded by a backslash, so tokenizing `label="a\"b\nc"`
yields the two-character value `a` `\`, not the claimed five-character
string. -/
theorem c1_counterexample :
    List.lookup "label" (parseAttributes "label=\"a\\\"b\\nc\"") = some (some "a\\") ∧
      ("a\\" : String) ≠ "a\"b\nc" :=
  ⟨rfl, by decide⟩

/-- Claim C1 (amended): the escape chain does rewrite `\n`, `\r`, `\t` and
`\\` to their literal characters inside a double-quoted value, but the
value's content extends only to the first double quote, so a double-quoted
value can never contain an escaped double quote; on the claimed input the
tokenizer returns the two-character string `a` `\`. -/
theorem c1_amended :
    parseAttributes "label=\"a\\\"b\\nc\"" = [("label", some "a\\")] ∧
      parseAttributes "label=\"b\\nc\"" = [("label", some "b\nc")] ∧
      parseAttributes "x=\"p\\tq\\rr\"" = [("x", some "p\tq\rr")] ∧
      parseAttributes "y=\"m\\\\m\"" = [("y", some "m\\m")] :=
  ⟨rfl, rfl, rfl, rfl⟩

/-- Claim C2 (confirmed): the five minimal examples parse successfully with
`id` equal to the given value, every string of the built-in suite parses
successfully, and the self-consistency check reports consistent with an
empty issue list. -/
theorem c2_minimal_examples_and_suite :
    parseLarkTreeCommand "ADD id=x" = .ok ⟨.ADD, [("id", some "x")]⟩ ∧
      (ParsedTreeCommand.mk .ADD [("id", some "x")]).id = some "x" ∧
      parseLarkTreeCommand "REMOVE id=x" = .ok ⟨.REMOVE, [("id", some "x")]⟩ ∧
      (ParsedTreeCommand.mk .REMOVE [("id", some "x")]).id = some "x" ∧
      parseLarkTreeCommand "MOVE id=x parent=y" =
        .ok ⟨.MOVE, [("id", some "x"), ("parent", some "y")]⟩ ∧
      (ParsedTreeCommand.mk .MOVE [("id", some "x"), ("parent", some "y")]).id = some "x" ∧
      parseLarkTreeCommand "RENAME id=x label=\"y\"" =
        .ok ⟨.RENAME, [("id", some "x"), ("label", some "y")]⟩ ∧
      (ParsedTreeCommand.mk .RENAME [("id", some "x"), ("label", some "y")]).id = some "x" ∧
      parseLarkTreeCommand "SET id=x value=y" =
        .ok ⟨.SET, [("id", some "x"), ("value", some "y")]⟩ ∧
      (ParsedTreeCommand.mk .SET [("id", some "x"), ("value", some "y")]).id = some "x" ∧
      testCases.all (fun tc => exceptIsOk (parseLarkTreeCommand tc)) = true ∧
      validateLarkParserConsistency = ⟨true, []⟩ :=
  ⟨rfl, rfl, rfl, rfl, rfl, rfl, rfl, rfl, rfl, rfl, rfl, rfl⟩

/-- Claim C3 (counterexample): on `MOVE id=x parent=""` both required
attribute names are keys of the tokenized mapping, yet the parse fails with
the missing-required-attribute error, because `parent=""` produces a JS
`undefined` value and the validator tests truthiness, not key presence. -/
theorem c3_counterexample :
    parseLarkTreeCommand "MOVE id=x parent=\"\"" =
        .error (.missingRequired .MOVE ["id", "parent"]) ∧
      attrKeys (parseAttributesL ['i', 'd', '=', 'x', ' ', 'p', 'a', 'r', 'e', 'n', 't',
        '=', '"', '"']) = ["id", "parent"] :=
  ⟨rfl, rfl⟩

/-- Claim C4 (counterexample): `REMOVE label=y` has an attribute other than
`id` in its tokenized mapping, but the parse fails with the
missing-`id=`-prefix error, not with the unexpected-attributes error,
because the prefix and `id` checks run before the extras check. -/
theorem c4_counterexample :
    parseLarkTreeCommand "REMOVE label=y" = .error (.idPrefixMissing .REMOVE) ∧
      attrKeys (parseAttributesL ['l', 'a', 'b', 'e', 'l', '=', 'y']) = ["label"] :=
  ⟨rfl, rfl⟩

/-- Claim C5 (counterexample): on `SET id=""` the tokenized mapping contains
`id` and no other attribute, yet the parse fails with the
missing-required-attribute error rather than `EmptyAttributeSet`, because
the empty quoted value makes `id` JS-`undefined` and the `id` truthiness
check runs first. -/
theorem c5_counterexample :
    parseLarkTreeCommand "SET id=\"\"" = .error (.missingRequired .SET ["id"]) ∧
      attrKeys (parseAttributesL ['i', 'd', '=', '"', '"']) = ["id"] :=
  ⟨rfl, rfl⟩

/-- Claim C3 (amended): after the keyword and `id=` prefix checks pass, the
parse fails with the missing-required-attribute error exactly when some
required attribute of the kind is not truthy in the tokenized mapping
(absent, mapped to the JS `undefined` produced by an empty quoted string,
or empty); the error names the kind's full required-attribute list, which
contains every missing name. -/
theorem c3_amended (s : String) (k : CommandType) (rem : List Char)
    (hk : matchKeyword (jsTrim s.data) = some (k, rem))
    (hid : idEq.isPrefixOf rem = true) :
    parseLarkTreeCommand s = .error (.missingRequired k (requiredAttrs k)) ↔
      ∃ a ∈ requiredAttrs k, attrTruthy (parseAttributesL rem) a = false := by
  unfold parseLarkTreeCommand
  rw [hk]
  cases k with
  | ADD =>
    cases ha : attrTruthy (parseAttributesL rem) "id" <;>
      simp [parseByKind, parseAddCommand, hid, requiredAttrs, ha]
  | REMOVE =>
    cases ha : attrTruthy (parseAttributesL rem) "id" <;>
      simp [parseByKind, parseRemoveCommand, hid, requiredAttrs, ha]
    split <;> simp
  | MOVE =>
    cases ha : attrTruthy (parseAttributesL rem) "id" <;>
      cases hb : attrTruthy (parseAttributesL rem) "parent" <;>
        simp [parseByKind, parseMoveCommand, hid, requiredAttrs, ha, hb]
  | RENAME =>
    cases ha : attrTruthy (parseAttributesL rem) "id" <;>
      cases hb : attrTruthy (parseAttributesL rem) "label" <;>
        simp [parseByKind, parseRenameCommand, hid, requiredAttrs, ha, hb]
  | SET =>
    cases ha : attrTruthy (parseAttributesL rem) "id" <;>
      simp [parseByKind, parseSetCommand, hid, requiredAttrs, ha]
    split <;> simp

/-- Witness for the amended C3 at `MOVE id=x`: the failure is equivalent to
some required attribute (here `parent`) not being truthy. -/
theorem c3_amended_witness :
    parseLarkTreeCommand "MOVE id=x" =
        .error (.missingRequired .MOVE (requiredAttrs .MOVE)) ↔
      ∃ a ∈ requiredAttrs .MOVE,
        attrTruthy (parseAttributesL ['i', 'd', '=', 'x']) a = false :=
  c3_amended "MOVE id=x" .MOVE ['i', 'd', '=', 'x'] (by decide) (by decide)

/-- Claim C4 (amended): for a REMOVE command that passes the `id=` prefix
check and whose `id` attribute is truthy, the parse fails with the
unexpected-attributes error exactly when the mapping has keys other than
`id`, listing them in `Object.keys` enumeration order (array-index names
ascending numerically, then the rest in first-insertion order), and
succeeds when `id` is the only key. -/
theorem c4_amended (s : String) (rem : List Char)
    (hk : matchKeyword (jsTrim s.data) = some (.REMOVE, rem))
    (hid : idEq.isPrefixOf rem = true)
    (htr : attrTruthy (parseAttributesL rem) "id" = true) :
    ((attrKeys (parseAttributesL rem)).filter (fun a => !(a == "id")) ≠ [] →
        parseLarkTreeCommand s =
          .error (.unexpectedAttributes
            ((attrKeys (parseAttributesL rem)).filter (fun a => !(a == "id"))))) ∧
      ((attrKeys (parseAttributesL rem)).filter (fun a => !(a == "id")) = [] →
        parseLarkTreeCommand s = .ok ⟨.REMOVE, parseAttributesL rem⟩) := by
  unfold parseLarkTreeCommand
  rw [hk]
  constructor
  · intro hex
    cases hex2 : (attrKeys (parseAttributesL rem)).filter (fun a => !(a == "id")) with
    | nil => exact absurd hex2 hex
    | cons e es =>
      simp [parseByKind, parseRemoveCommand, hid, htr, hex2]
  · intro hex
    simp [parseByKind, parseRemoveCommand, hid, htr, hex]

/-- Witness for the amended C4 at `REMOVE id=x label="y"`: the spec's own
example, failing with `UnexpectedAttributes` naming `label`. -/
theorem c4_amended_witness :
    ((attrKeys (parseAttributesL ['i', 'd', '=', 'x', ' ', 'l', 'a', 'b', 'e', 'l',
          '=', '"', 'y', '"'])).filter (fun a => !(a == "id")) ≠ [] →
        parseLarkTreeCommand "REMOVE id=x label=\"y\"" =
          .error (.unexpectedAttributes
            ((attrKeys (parseAttributesL ['i', 'd', '=', 'x', ' ', 'l', 'a', 'b', 'e',
              'l', '=', '"', 'y', '"'])).filter (fun a => !(a == "id"))))) ∧
      ((attrKeys (parseAttributesL ['i', 'd', '=', 'x', ' ', 'l', 'a', 'b', 'e', 'l',
          '=', '"', 'y', '"'])).filter (fun a => !(a == "id")) = [] →
        parseLarkTreeCommand "REMOVE id=x label=\"y\"" =
          .ok ⟨.REMOVE, parseAttributesL ['i', 'd', '=', 'x', ' ', 'l', 'a', 'b', 'e',
            'l', '=', '"', 'y', '"']⟩) :=
  c4_amended "REMOVE id=x label=\"y\""
    ['i', 'd', '=', 'x', ' ', 'l', 'a', 'b', 'e', 'l', '=', '"', 'y', '"']
    (by decide) (by decide) (by decide)

/-- Claim C5 (amended): for a SET command that passes the `id=` prefix
check, the parse fails with `EmptyAttributeSet` exactly when `id` is truthy
in the tokenized mapping and no key other than `id` exists (a
`__proto__=...` pair creates no key, so it does not count); with a truthy
`id` and at least one other key it succeeds. -/
theorem c5_amended (s : String) (rem : List Char)
    (hk : matchKeyword (jsTrim s.data) = some (.SET, rem))
    (hid : idEq.isPrefixOf rem = true) :
    (parseLarkTreeCommand s = .error .emptyAttributeSet ↔
        attrTruthy (parseAttributesL rem) "id" = true ∧
          (attrKeys (parseAttributesL rem)).filter (fun a => !(a == "id")) = []) ∧
      (attrTruthy (parseAttributesL rem) "id" = true →
        (attrKeys (parseAttributesL rem)).filter (fun a => !(a == "id")) ≠ [] →
        parseLarkTreeCommand s = .ok ⟨.SET, parseAttributesL rem⟩) := by
  unfold parseLarkTreeCommand
  rw [hk]
  constructor
  · cases ha : attrTruthy (parseAttributesL rem) "id" with
    | false => simp [parseByKind, parseSetCommand, hid, ha]
    | true =>
      cases hex : (attrKeys (parseAttributesL rem)).filter (fun a => !(a == "id")) with
      | nil => simp [parseByKind, parseSetCommand, hid, ha, hex]
      | cons e es => simp [parseByKind, parseSetCommand, hid, ha, hex]
  · intro ha hex
    cases hex2 : (attrKeys (parseAttributesL rem)).filter (fun a => !(a == "id")) with
    | nil => exact absurd hex2 hex
    | cons e es => simp [parseByKind, parseSetCommand, hid, ha, hex2]

/-- Witness for the amended C5 at `SET id=x`: the spec's own example, where
the failure is equivalent to `id` truthy with no other attribute. -/
theorem c5_amended_witness :
    (parseLarkTreeCommand "SET id=x" = .error .emptyAttributeSet ↔
        attrTruthy (parseAttributesL ['i', 'd', '=', 'x']) "id" = true ∧
          (attrKeys (parseAttributesL ['i', 'd', '=', 'x'])).filter
            (fun a => !(a == "id")) = []) ∧
      (attrTruthy (parseAttributesL ['i', 'd', '=', 'x']) "id" = true →
        (attrKeys (parseAttributesL ['i', 'd', '=', 'x'])).filter
          (fun a => !(a == "id")) ≠ [] →
        parseLarkTreeCommand "SET id=x" = .ok ⟨.SET, parseAttributesL ['i', 'd', '=', 'x']⟩) :=
  c5_amended "SET id=x" ['i', 'd', '=', 'x'] (by decide) (by decide)

/-- Claim C10 (confirmed): when the trimmed input is one of the five
keywords not followed by a whitespace character, no keyword alternative of
the anchored regex can match (each demands `\s+` after the keyword, and no
keyword is a case-insensitive prefix of another), so the parse fails with
the shared invalid-command-format error rather than a missing-`id=`-prefix
error. -/
theorem c10_keyword_requires_whitespace (s : String) (k : CommandType) (rest : List Char)
    (h1 : jsTrim s.data = kwChars k ++ rest)
    (h2 : ∀ c, rest.head? = some c → isJsSpace c = false) :
    parseLarkTreeCommand s = .error .invalidFormat := by
  have hafter : afterKw rest = none := by
    cases rest with
    | nil => rfl
    | cons c cs =>
      have hc := h2 c rfl
      simp [afterKw, hc]
  unfold parseLarkTreeCommand
  rw [h1]
  have hnone : matchKeyword (kwChars k ++ rest) = none := by
    cases k with
    | ADD =>
      have e1 : tryKw (kwChars .ADD) (kwChars .ADD ++ rest) = afterKw rest := rfl
      have e2 : tryKw (kwChars .REMOVE) (kwChars .ADD ++ rest) = none := rfl
      have e3 : tryKw (kwChars .MOVE) (kwChars .ADD ++ rest) = none := rfl
      have e4 : tryKw (kwChars .RENAME) (kwChars .ADD ++ rest) = none := rfl
      have e5 : tryKw (kwChars .SET) (kwChars .ADD ++ rest) = none := rfl
      simp [matchKeyword, e1, e2, e3, e4, e5, hafter]
    | REMOVE =>
      have e1 : tryKw (kwChars .ADD) (kwChars .REMOVE ++ rest) = none := rfl
      have e2 : tryKw (kwChars .REMOVE) (kwChars .REMOVE ++ rest) = afterKw rest := rfl
      have e3 : tryKw (kwChars .MOVE) (kwChars .REMOVE ++ rest) = none := rfl
      have e4 : tryKw (kwChars .RENAME) (kwChars .REMOVE ++ rest) = none := rfl
      have e5 : tryKw (kwChars .SET) (kwChars .REMOVE ++ rest) = none := rfl
      simp [matchKeyword, e1, e2, e3, e4, e5, hafter]
    | MOVE =>
      have e1 : tryKw (kwChars .ADD) (kwChars .MOVE ++ rest) = none := rfl
      have e2 : tryKw (kwChars .REMOVE) (kwChars .MOVE ++ rest) = none := rfl
      have e3 : tryKw (kwChars .MOVE) (kwChars .MOVE ++ rest) = afterKw rest := rfl
      have e4 : tryKw (kwChars .RENAME) (kwChars .MOVE ++ rest) = none := rfl
      have e5 : tryKw (kwChars .SET) (kwChars .MOVE ++ rest) = none := rfl
      simp [matchKeyword, e1, e2, e3, e4, e5, hafter]
    | RENAME =>
      have e1 : tryKw (kwChars .ADD) (kwChars .RENAME ++ rest) = none := rfl
      have e2 : tryKw (kwChars .REMOVE) (kwChars .RENAME ++ rest) = none := rfl
      have e3 : tryKw (kwChars .MOVE) (kwChars .RENAME ++ rest) = none := rfl
      have e4 : tryKw (kwChars .RENAME) (kwChars .RENAME ++ rest) = afterKw rest := rfl
      have e5 : tryKw (kwChars .SET) (kwChars .RENAME ++ rest) = none := rfl
      simp [matchKeyword, e1, e2, e3, e4, e5, hafter]
    | SET =>
      have e1 : tryKw (kwChars .ADD) (kwChars .SET ++ rest) = none := rfl
      have e2 : tryKw (kwChars .REMOVE) (kwChars .SET ++ rest) = none := rfl
      have e3 : tryKw (kwChars .MOVE) (kwChars .SET ++ rest) = none := rfl
      have e4 : tryKw (kwChars .RENAME) (kwChars .SET ++ rest) = none := rfl
      have e5 : tryKw (kwChars .SET) (kwChars .SET ++ rest) = afterKw rest := rfl
      simp [matchKeyword, e1, e2, e3, e4, e5, hafter]
  rw [hnone]

/-- Witness for C10 at `ADDid=x`: the keyword runs straight into `id=` with
no whitespace, and the parse reports the invalid-format error. -/
theorem c10_keyword_requires_whitespace_witness :
    parseLarkTreeCommand "ADDid=x" = .error .invalidFormat :=
  c10_keyword_requires_whitespace "ADDid=x" .ADD ['i', 'd', '=', 'x'] (by decide)
    (by intro c hc; injection hc with h; subst h; rfl)

/-- Claim C8 (confirmed): the tokenizer is a total function on strings (its
Lean type is `List Char → Attrs` with no failure case); a character at which
no match starts is skipped, so any stretch of non-conforming text before,
between or after matches is ignored, and an input with no match at any
position yields the empty mapping. -/
theorem c8_tokenizer_total_lenient :
    (∀ l : List Char,
        (∀ i, i < l.length → matchAt (l.drop i) = none) → parseAttributesL l = []) ∧
      (∀ junk l : List Char,
        (∀ i, i < junk.length → matchAt ((junk ++ l).drop i) = none) →
          scanAttrs (junk ++ l) = scanAttrs l) := by
  have hskip : ∀ junk l : List Char,
      (∀ i, i < junk.length → matchAt ((junk ++ l).drop i) = none) →
        scanAttrs (junk ++ l) = scanAttrs l := by
    intro junk
    induction junk with
    | nil => intro l _; rfl
    | cons c t ih =>
      intro l h
      have h0 : matchAt (c :: (t ++ l)) = none := by
        have h0' := h 0 (by simp)
        simpa using h0'
      rw [List.cons_append, scanAttrs_skip h0]
      refine ih l (fun i hi => ?_)
      have hi' := h (i + 1) (by simp only [List.length_cons]; omega)
      simpa [List.drop_succ_cons] using hi'
  refine ⟨?_, hskip⟩
  intro l h
  have hl := hskip l [] (by simpa using h)
  rw [List.append_nil] at hl
  unfold parseAttributesL
  rw [hl, scanAttrs_nil]
  rfl

/-- Witness for C8: an input with no conforming `name=value` match anywhere
tokenizes to the empty mapping. -/
theorem c8_tokenizer_total_lenient_witness :
    parseAttributesL ['h', 'e', 'l', 'l', 'o', ' ', 'w', 'o', 'r', 'l', 'd'] = [] :=
  c8_tokenizer_total_lenient.1 ['h', 'e', 'l', 'l', 'o', ' ', 'w', 'o', 'r', 'l', 'd']
    (by decide)

/-! ### Round trip of serialization and re-tokenization (for C9) -/

theorem string_mk_data (s : String) : String.mk s.data = s := by
  cases s
  rfl

theorem matchValue_quoted (v : String) (rest : List Char)
    (hv1 : v.data ≠ []) (hv2 : '"' ∉ v.data) (hv3 : unescape v.data = v.data) :
    matchValue ('"' :: (v.data ++ '"' :: ' ' :: rest)) = some (some v, ' ' :: rest) := by
  have hpos : ∀ c ∈ v.data, (fun x => !(x == '"')) c = true := by
    intro c hc
    have hne : c ≠ '"' := fun h => hv2 (h ▸ hc)
    simp [hne]
  have hdrop : (v.data ++ '"' :: ' ' :: rest).dropWhile (fun x => !(x == '"')) =
      '"' :: ' ' :: rest := by
    rw [List.dropWhile_append_of_pos hpos]
    simp
  have htake : (v.data ++ '"' :: ' ' :: rest).takeWhile (fun x => !(x == '"')) = v.data := by
    rw [List.takeWhile_append_of_pos hpos]
    simp
  simp [matchValue, hdrop, htake, mkQuoted, List.isEmpty_iff, hv1, hv3, string_mk_data]

theorem matchAt_entry (k v : String) (rest : List Char)
    (hk1 : k.data ≠ []) (hk2 : ∀ c ∈ k.data, isWordChar c = true)
    (hk3 : k.data.map Char.toLower = k.data)
    (hv1 : v.data ≠ []) (hv2 : '"' ∉ v.data) (hv3 : unescape v.data = v.data) :
    matchAt (k.data ++ '=' :: '"' :: (v.data ++ '"' :: ' ' :: rest)) =
      some (k, some v, ' ' :: rest) := by
  have htake : (k.data ++ '=' :: '"' :: (v.data ++ '"' :: ' ' :: rest)).takeWhile isWordChar
      = k.data := by
    rw [List.takeWhile_append_of_pos hk2]
    simp [isWordChar]
  have hdrop : (k.data ++ '=' :: '"' :: (v.data ++ '"' :: ' ' :: rest)).dropWhile isWordChar
      = '=' :: '"' :: (v.data ++ '"' :: ' ' :: rest) := by
    rw [List.dropWhile_append_of_pos hk2]
    simp [isWordChar]
  obtain ⟨nm, nms, hkd⟩ : ∃ nm nms, k.data = nm :: nms := by
    cases hkd : k.data with
    | nil => exact absurd hkd hk1
    | cons a b => exact ⟨a, b, rfl⟩
  have hk3' : List.map Char.toLower (nm :: nms) = nm :: nms := by
    rw [← hkd]
    exact hk3
  have hmk : String.mk (nm :: nms) = k := by
    rw [← hkd]
  unfold matchAt
  rw [htake, hdrop, hkd]
  simp [matchValue_quoted v rest hv1 hv2 hv3, hk3', hmk]

theorem scanAttrs_serialize (m : List (String × String))
    (hkey : ∀ kv ∈ m, kv.1.data ≠ [] ∧ (∀ c ∈ kv.1.data, isWordChar c = true) ∧
      kv.1.data.map Char.toLower = kv.1.data)
    (hval : ∀ kv ∈ m, kv.2.data ≠ [] ∧ '"' ∉ kv.2.data ∧ unescape kv.2.data = kv.2.data) :
    scanAttrs (serializeAttrs m) = m.map (fun kv => (kv.1, some kv.2)) := by
  induction m with
  | nil => rfl
  | cons kv t ih =>
    obtain ⟨k, v⟩ := kv
    obtain ⟨hk1, hk2, hk3⟩ := hkey (k, v) (List.mem_cons_self _ _)
    obtain ⟨hv1, hv2, hv3⟩ := hval (k, v) (List.mem_cons_self _ _)
    have hser : serializeAttrs ((k, v) :: t) =
        k.data ++ '=' :: '"' :: (v.data ++ '"' :: ' ' :: serializeAttrs t) := by
      simp [serializeAttrs, serializeAttrEntry, List.append_assoc]
    rw [hser]
    rw [scanAttrs_match (matchAt_entry k v (serializeAttrs t) hk1 hk2 hk3 hv1 hv2 hv3)]
    rw [scanAttrs_skip (matchAt_nonword (by decide))]
    rw [ih (fun p hp => hkey p (List.mem_cons_of_mem _ hp))
      (fun p hp => hval p (List.mem_cons_of_mem _ hp))]
    rfl

/-- Claim C9 (amended): re-serializing a tokenizer-style mapping as
`name="value"` entries and re-tokenizing returns the same mapping, provided
every entry is of the shape the round trip can survive: distinct lowercase
word-character names other than `__proto__` (whose assignment creates no
own property), and defined, non-empty values that contain no double quote
and are fixed points of the escape chain.  The counterexample shows the
restriction is necessary: tokenizer outputs themselves can violate it. -/
theorem c9_amended (m : List (String × String))
    (hnd : (m.map Prod.fst).Nodup)
    (hkey : ∀ kv ∈ m, kv.1.data ≠ [] ∧ (∀ c ∈ kv.1.data, isWordChar c = true) ∧
      kv.1.data.map Char.toLower = kv.1.data)
    (hpk : ∀ kv ∈ m, kv.1 ≠ "__proto__")
    (hval : ∀ kv ∈ m, kv.2.data ≠ [] ∧ '"' ∉ kv.2.data ∧ unescape kv.2.data = kv.2.data) :
    parseAttributesL (serializeAttrs m) = m.map (fun kv => (kv.1, some kv.2)) := by
  unfold parseAttributesL
  rw [scanAttrs_serialize m hkey hval]
  have hnd' : ((m.map (fun kv => (kv.1, some kv.2))).map Prod.fst).Nodup := by
    rw [List.map_map]
    exact hnd
  have hproto : ∀ p ∈ m.map (fun kv => (kv.1, some kv.2)), p.1 ≠ "__proto__" := by
    intro p hp
    obtain ⟨kv, hkv, rfl⟩ := List.mem_map.mp hp
    exact hpk kv hkv
  have hfold := foldl_jsInsert_eq (l := m.map (fun kv => (kv.1, some kv.2))) []
    hproto (fun p _ q hq => absurd hq (List.not_mem_nil q)) hnd'
  simpa using hfold

/-- Witness for the amended C9 at the one-entry mapping `a ↦ b`. -/
theorem c9_amended_witness :
    parseAttributesL (serializeAttrs [("a", "b")]) =
      [("a", "b")].map (fun kv => (kv.1, some kv.2)) :=
  c9_amended [("a", "b")] (by decide) (by decide) (by decide) (by decide)

/-- Claim C9 (counterexample): the tokenizer maps `a="\\\\"` (four
backslashes inside the quotes) to the two-backslash value, but serializing
that mapping back to `a="\\"` and re-tokenizing yields the one-backslash
value, so tokenization is not idempotent on its own output. -/
theorem c9_counterexample :
    parseAttributes "a=\"\\\\\\\\\"" = [("a", some "\\\\")] ∧
      parseAttributesL (serializeAttrs [("a", "\\\\")]) = [("a", some "\\")] ∧
      (some "\\" : Option String) ≠ some "\\\\" :=
  ⟨rfl, rfl, by decide⟩

end LarkGen
